import Mathlib

/-!
Shallow embedding of the OpenSlides autoupdate service's keysbuilder
(request parsing and the key-graph resolver) and of the connection
engine's first delivery, together with theorems about the specified
behaviour.

The Go sources embedded here are `keysbuilder.FromJSON`,
`keysbuilder.ManyFromJSON`, `Builder.Update`, `Builder.Keys`,
`buildGenericKey` and `buildCollectionID`.  The `body` type with its
`keys` method, the `fieldDescription` implementations and the
`Connection` type are not part of the available sources; they are
modelled from the specification, and each such definition is marked
`Modelled from the spec:` in its doc comment.

Go maps are embedded as association lists whose insert operation
overwrites an existing binding; map iteration order, which Go leaves
unspecified, is fixed to list order (all theorems below are about
membership, counts or multisets, which do not depend on that order).
The possibly non-terminating fixpoint loop of `Update` is embedded
with a fuel parameter; the fuel is chosen strictly larger than the
descriptor depth of the request (via the derived `sizeOf`), so the
artificial out-of-fuel branch is unreachable for real requests, and
every theorem about a successful run conditions on an `.ok` result.
-/

namespace keysbuilder

/-- A datastore key `collection/id/field`, kept as a plain string as in Go. -/
abbrev Key := String

/-- Separator between the components of a key (source: `keySep`). -/
def keySep : String := "/"

/-- `buildGenericKey "motion/5" "title" = "motion/5/title"` (source). -/
def buildGenericKey (collectionID : String) (field : String) : String :=
  collectionID ++ keySep ++ field

/-- `buildCollectionID "motion" 5 = "motion/5"` (source). -/
def buildCollectionID (collection : String) (id : Int) : String :=
  collection ++ keySep ++ toString id

/-- The JSON value fetched for a relation key, abstracted to the shapes the
resolver distinguishes: a string (single relation target), a list of integer
ids (multi relation target), or a structurally different value. -/
inductive JsonValue where
  | str (s : String)
  | intList (ids : List Int)
  | num (n : Int)
  | boolean (b : Bool)
  | obj
  deriving DecidableEq, Repr

/-- The name `encoding/json` uses for the value's type in an
`UnmarshalTypeError` (its `Value` field). -/
def JsonValue.goType : JsonValue → String
  | .str _ => "string"
  | .intList _ => "array"
  | .num _ => "number"
  | .boolean _ => "bool"
  | .obj => "object"

/-- Modelled from the spec: the resolver-side field description.  The Go
interface `fieldDescription` with its implementations is not in the available
sources; the spec models it as the tagged sum
`Terminal | SingleRelation(targetCollection, nested) | MultiRelation(targetCollection, nested)`,
where `Terminal` plays the role of Go's `nil` descriptor for plain fields. -/
inductive fieldDescription where
  | terminal
  | relation (collection : String) (fields : List (String × fieldDescription))
  | relationList (collection : String) (fields : List (String × fieldDescription))

/-- A descriptor that expands further (Go: a non-nil `fieldDescription`). -/
def fieldDescription.isRel : fieldDescription → Bool
  | .terminal => false
  | .relation _ _ => true
  | .relationList _ _ => true

mutual

/-- A computable size of a descriptor, strictly larger than its nesting
depth; used only to pick a sufficient fuel for the fixpoint loop. -/
def fieldDescription.size : fieldDescription → Nat
  | .terminal => 1
  | .relation _ fs => 1 + fieldsSize fs
  | .relationList _ fs => 1 + fieldsSize fs

/-- Total size of a nested field list. -/
def fieldsSize : List (String × fieldDescription) → Nat
  | [] => 1
  | (_, d) :: rest => d.size + fieldsSize rest

end

/-- The working map `process : key → descriptor`, embedded as an association
list; Go map insertion overwrites the binding of an existing key. -/
abbrev ProcessMap := List (Key × fieldDescription)

/-- Go map assignment `m[k] = d`: overwrite if present, append otherwise. -/
def mapInsert (m : ProcessMap) (k : Key) (d : fieldDescription) : ProcessMap :=
  if m.any (fun p => p.1 == k) then
    m.map (fun p => if p.1 = k then (k, d) else p)
  else
    m ++ [(k, d)]

/-- Insert a batch of bindings, left to right. -/
def insertAll (m : ProcessMap) (l : List (Key × fieldDescription)) : ProcessMap :=
  l.foldl (fun m p => mapInsert m p.1 p.2) m

/-- Modelled from the spec: a request body, a mapping from collection-id to
field descriptions.  The Go `body` type is not in the available sources. -/
structure body where
  entries : List (String × List (String × fieldDescription))

/-- Modelled from the spec: `body.keys(process)` — "For every top-level
(collection-id, field) pair in every body, insert `collectionID/field →
descriptor`" into the process map. -/
def body.keysInto (b : body) (m : ProcessMap) : ProcessMap :=
  b.entries.foldl
    (fun m cf => cf.2.foldl (fun m fd => mapInsert m (buildGenericKey cf.1 fd.1) fd.2) m) m

/-- Errors produced by a descriptor parsing a fetched value: either a
`*json.UnmarshalTypeError` (structurally wrong shape) or a different
failure (such as a relation target in the wrong collection). -/
inductive DescError where
  | unmarshalTypeError (gotType : String) (expectType : String)
  | otherErr (msg : String)
  deriving DecidableEq, Repr

/-- The characters before the first `/`. -/
def upToSep : List Char → List Char
  | [] => []
  | c :: rest => if c = '/' then [] else c :: upToSep rest

/-- The collection component of a `collection/id` string. -/
def collectionOf (s : String) : String :=
  ⟨upToSep s.toList⟩

/-- Modelled from the spec: `description.keys(key, value, process)` — the next
generation of bindings produced by a descriptor from its fetched value.
Single relation: the value must be a string `collection/id` whose collection
matches the configured target, and every nested field is inserted under it.
Multi relation: the value must be a list of integer ids, and every nested
field is inserted under `target/id`.  A value of the wrong shape is a
`json.UnmarshalTypeError`. -/
def descNextKeys : fieldDescription → JsonValue → Except DescError (List (Key × fieldDescription))
  | .terminal, _ => .ok []
  | .relation col fields, .str s =>
      if collectionOf s = col then
        .ok (fields.map (fun fd => (buildGenericKey s fd.1, fd.2)))
      else
        .error (.otherErr ("invalid collection, expected " ++ col))
  | .relation _ _, v => .error (.unmarshalTypeError v.goType "string")
  | .relationList col fields, .intList ids =>
      .ok (ids.foldr
        (fun i acc => fields.map (fun fd => (buildGenericKey (buildCollectionID col i) fd.1, fd.2)) ++ acc)
        [])
  | .relationList _ _, v => .error (.unmarshalTypeError v.goType "list")

/-- Errors out of `Builder.Update` (source lines 79-104): a wrapped data
provider failure, a `ValueError{key, gotType, expectType}`, another
descriptor failure, or the artificial fuel bound of the embedding. -/
inductive UpdateError where
  | loadNeeded (msg : String)
  | valueError (key : String) (gotType : String) (expectType : String)
  | descFailure (msg : String)
  | outOfFuel
  deriving DecidableEq, Repr

/-- `dataProvider.RestrictedData(ctx, uid, needed...)`: returns for the
requested keys a partial map of values, where `none` stands for a key that is
absent or whose value is JSON `null` (Go: `data[key] == nil`). -/
abbrev DataProvider := List Key → Except String (Key → Option JsonValue)

/-- One pass over `processed` (source lines 90-105): entries whose fetched
value is absent or null are skipped silently, otherwise the descriptor's next
generation is inserted into the fresh process map; a
`json.UnmarshalTypeError` is converted into a `ValueError` carrying the key. -/
def processRound :
    List (Key × fieldDescription) → (Key → Option JsonValue) → ProcessMap →
    Except UpdateError ProcessMap
  | [], _, m => .ok m
  | p :: rest, data, m =>
    match data p.1 with
    | none => processRound rest data m
    | some v =>
      match descNextKeys p.2 v with
      | .error (.unmarshalTypeError g e) => .error (.valueError p.1 g e)
      | .error (.otherErr msg) => .error (.descFailure msg)
      | .ok next => processRound rest data (insertAll m next)

/-- The entries of the process map that still need their value fetched
(Go: the entries whose description is not nil). -/
def relEntries (m : ProcessMap) : List (Key × fieldDescription) :=
  m.filter (fun p => p.2.isRel)

/-- The fixpoint loop of `Update` (source lines 62-111), with fuel.  Each
round appends every key of `process` to the output, fetches the values of the
relation entries, and lets `processRound` build the next process map; it
stops when no entry needs a fetch.  The second component of the result
collects the argument list of every `RestrictedData` call. -/
def loopN (dp : DataProvider) :
    Nat → ProcessMap → List Key → List (List Key) →
    Except UpdateError (List Key × List (List Key))
  | 0, _, _, _ => .error .outOfFuel
  | fuel + 1, process, keys, calls =>
    let keys := keys ++ process.map Prod.fst
    let processed := relEntries process
    let needed := processed.map Prod.fst
    if needed.isEmpty then
      .ok (keys, calls)
    else
      match dp needed with
      | .error msg => .error (.loadNeeded msg)
      | .ok data =>
        match processRound processed data [] with
        | .error e => .error e
        | .ok next => loopN dp fuel next keys (calls ++ [needed])

/-- The seed process map: all top-level keys of all bodies (source lines
53-57). -/
def seedProcess (bodies : List body) : ProcessMap :=
  bodies.foldl (fun m b => b.keysInto m) []

/-- Total descriptor size of a process map; exceeds the number of rounds the
loop can run, since every round strictly unnests the descriptors. -/
def processSize (m : ProcessMap) : Nat :=
  (m.map (fun p => p.2.size)).sum

/-- `Builder.Update` as a function of the bodies: seed the process map and
run the loop.  The fuel `processSize + 1` strictly bounds the descriptor
depth of the request, so the loop always stops before the fuel does. -/
def updateKeys (bodies : List body) (dp : DataProvider) :
    Except UpdateError (List Key × List (List Key)) :=
  let process := seedProcess bodies
  loopN dp (processSize process + 1) process [] []

/-- The `Builder` struct (source lines 20-25); the data provider is passed to
`Update` explicitly instead of being stored. -/
structure Builder where
  uid : Int
  bodies : List body
  keys : List Key

/-- `Builder.Update` (source lines 45-113): recompute the key list; on any
error the key list is truncated to empty (the deferred reset). -/
def Builder.Update (b : Builder) (dp : DataProvider) : Builder × Option UpdateError :=
  match updateKeys b.bodies dp with
  | .ok r => (⟨b.uid, b.bodies, r.1⟩, none)
  | .error e => (⟨b.uid, b.bodies, []⟩, some e)

/-- `Builder.Keys` (source lines 116-118); the Go copy is the identity here. -/
def Builder.Keys (b : Builder) : List Key :=
  b.keys

/-- `newBuilder` (source lines 28-38): build the struct and run the first
`Update`. -/
def newBuilder (dp : DataProvider) (uid : Int) (bodys : List body) :
    Except UpdateError Builder :=
  match Builder.Update ⟨uid, bodys, []⟩ dp with
  | (b, none) => .ok b
  | (_, some e) => .error e

/-- The reflect kind of the target type in a `*json.UnmarshalTypeError`, as
far as `ManyFromJSON` distinguishes it. -/
inductive GoKind where
  | structKind
  | sliceKind
  | intKind
  | otherKind (name : String)
  deriving DecidableEq, Repr

/-- The expect-type name `ManyFromJSON` prints for a kind (source lines
46-55). -/
def GoKind.jsonName : GoKind → String
  | .structKind => "object"
  | .sliceKind => "list"
  | .intKind => "number"
  | .otherKind n => n

/-- The outcome of `json.NewDecoder(r).Decode(&x)`, abstracted: end of input,
a syntax error, an `*json.UnmarshalTypeError`, an `InvalidError` escaping from
`body.UnmarshalJSON` (modelled from the spec: the body parser rejects a
structurally wrong value with `InvalidError{"wrong type at field F. Got G,
expected E"}`), or another failure. -/
inductive GoDecodeError where
  | eof
  | synErr (msg : String)
  | typeErr (field : String) (value : String) (kind : GoKind)
  | invalid (msg : String)
  | other (msg : String)
  deriving DecidableEq, Repr

/-- Errors out of the two parse entry points: `InvalidError`, `JSONError`
wrapping the decode failure, the wrapped decode failure of the
`decode keysrequest` branch, or a wrapped builder error (`build keys`). -/
inductive ParseError where
  | invalidError (msg : String)
  | jsonError (cause : GoDecodeError)
  | decodeWrapped (msg : String)
  | buildWrapped (e : UpdateError)
  deriving DecidableEq, Repr

/-- The message of the `InvalidError` that `ManyFromJSON` builds from an
`UnmarshalTypeError` (source line 57), and that the body parser is specified
to produce for a structurally wrong value. -/
def wrongTypeMsg (field : String) (got : String) (expected : String) : String :=
  "wrong type at field `" ++ field ++ "`. Got " ++ got ++ ", expected " ++ expected

/-- `FromJSON` (source part_000 lines 12-29), over the abstract decode
outcome: end of input is `InvalidError{"No data"}`, an `InvalidError` from the
body parser passes through, every other decode failure becomes
`JSONError{err}`; a decoded body is handed to `newBuilder`. -/
def FromJSON (dec : Except GoDecodeError body) (dp : DataProvider) (uid : Int) :
    Except ParseError Builder :=
  match dec with
  | .error .eof => .error (.invalidError "No data")
  | .error (.invalid m) => .error (.invalidError m)
  | .error e => .error (.jsonError e)
  | .ok b =>
    match newBuilder dp uid [b] with
    | .error e => .error (.buildWrapped e)
    | .ok kb => .ok kb

/-- `ManyFromJSON` (source part_000 lines 32-71), over the abstract decode
outcome: end of input and the empty list are `InvalidError{"No data"}`, an
`InvalidError` passes through, a syntax error becomes `JSONError`, an
`UnmarshalTypeError` becomes the `wrong type at field` `InvalidError`, any
other decode failure is wrapped; a non-empty list is handed to `newBuilder`. -/
def ManyFromJSON (dec : Except GoDecodeError (List body)) (dp : DataProvider) (uid : Int) :
    Except ParseError Builder :=
  match dec with
  | .error .eof => .error (.invalidError "No data")
  | .error (.invalid m) => .error (.invalidError m)
  | .error (.synErr m) => .error (.jsonError (.synErr m))
  | .error (.typeErr f v kind) => .error (.invalidError (wrongTypeMsg f v kind.jsonName))
  | .error (.other m) => .error (.decodeWrapped m)
  | .ok [] => .error (.invalidError "No data")
  | .ok bs =>
    match newBuilder dp uid bs with
    | .error e => .error (.buildWrapped e)
    | .ok kb => .ok kb

end keysbuilder

namespace autoupdate

/-- Modelled from the spec: the per-connection state.  The `Connection` type
of the autoupdate package is not in the available sources (only its tests
are); per the spec it owns the user id, the builder's key set, the
last-delivered map and the first-call flag. -/
structure Connection where
  uid : Int
  builderKeys : List keysbuilder.Key
  last : List (keysbuilder.Key × String)
  firstCall : Bool

/-- Modelled from the spec: the first call of `Next` — "Fetch the full key
set from the builder, load restricted values for all keys, populate `last`
with what was delivered (keys whose restricted value is absent are NOT
inserted into `last`), return the map of visible keys only."  `restricted`
gives the restricted value of a key, `none` meaning absent/invisible. -/
def connFirstNext (c : Connection)
    (restricted : keysbuilder.Key → Option String) :
    Connection × List (keysbuilder.Key × String) :=
  let delivered :=
    c.builderKeys.filterMap (fun k => (restricted k).map (fun v => (k, v)))
  (⟨c.uid, c.builderKeys, delivered, false⟩, delivered)

/-- A restriction sample: the user sees only `user/1/name`. -/
def demoRestricted : keysbuilder.Key → Option String :=
  fun k => if k = "user/1/name" then some "hello" else none

end autoupdate

namespace keysbuilder

/-- Whether a value is a JSON string. -/
def JsonValue.isStr : JsonValue → Bool
  | .str _ => true
  | _ => false

/-- Whether a value is a list of integer ids. -/
def JsonValue.isIntList : JsonValue → Bool
  | .intList _ => true
  | _ => false

/-- A process map whose keys are pairwise distinct, as for a Go map. -/
def NodupKeys (m : ProcessMap) : Prop :=
  (m.map Prod.fst).Nodup

/-- Sample request: `motion/5` with the single relation field `title_id`
into collection `motion`. -/
def relationBody : body :=
  ⟨[("motion/5", [("title_id", .relation "motion" [("title", .terminal)])])]⟩

/-- A data provider whose transport always fails. -/
def failingDP : DataProvider :=
  fun _ => .error "boom"

/-- Sample request whose relation points back at its own key: `a/1` asks for
field `f` as a relation into collection `a` with nested field `f`. -/
def selfRefBody : body :=
  ⟨[("a/1", [("f", .relation "a" [("f", .terminal)])])]⟩

/-- Data provider for `selfRefBody`: the value of `a/1/f` is the key string
`a/1`, so the second level produces the key `a/1/f` again. -/
def selfRefDP : DataProvider :=
  fun _ => .ok (fun k => if k = "a/1/f" then some (.str "a/1") else none)

/-- Sample request of the specification's scenario 6: `motion/5` with the
multi-relation field `title_ids` into collection `tag`. -/
def listRelBody : body :=
  ⟨[("motion/5", [("title_ids", .relationList "tag" [("name", .terminal)])])]⟩

/-- Data provider for `listRelBody` that answers `42` — a number where a list
of ids is expected. -/
def numberDP : DataProvider :=
  fun _ => .ok (fun k => if k = "motion/5/title_ids" then some (.num 42) else none)

/-- Sample request with only plain fields: `user/1` with field `name`. -/
def plainBody : body :=
  ⟨[("user/1", [("name", .terminal)])]⟩

/-- A data provider that answers every request with no visible values. -/
def emptyDP : DataProvider :=
  fun _ => .ok (fun _ => none)

end keysbuilder

namespace keysbuilder

/-- Claim C7: parsing empty input yields `InvalidError{"No data"}`: `FromJSON`
returns it when the decoder reports end of input (the empty reader), and
`ManyFromJSON` returns it both on end of input and on a decoded list of zero
bodies (the JSON array `[]`). -/
theorem parse_empty_input_no_data (dp : DataProvider) (uid : Int) :
    FromJSON (.error .eof) dp uid = .error (.invalidError "No data") ∧
    ManyFromJSON (.error .eof) dp uid = .error (.invalidError "No data") ∧
    ManyFromJSON (.ok []) dp uid = .error (.invalidError "No data") :=
  ⟨rfl, rfl, rfl⟩

/-- Claim C8: a structurally wrong value is rejected by both parse entry
points with an `InvalidError` whose message has the form
"wrong type at field F. Got G, expected E", not with a `JSONError`: the body
parser's `InvalidError` passes through `FromJSON` and `ManyFromJSON`
unchanged, and `ManyFromJSON` converts a top-level `UnmarshalTypeError` into
the same message with the kind name mapped (struct to object, slice to list,
int to number). -/
theorem parse_wrong_type_invalid_error (dp : DataProvider) (uid : Int)
    (f g e : String) (kind : GoKind) :
    FromJSON (.error (.invalid (wrongTypeMsg f g e))) dp uid =
      .error (.invalidError (wrongTypeMsg f g e)) ∧
    ManyFromJSON (.error (.invalid (wrongTypeMsg f g e))) dp uid =
      .error (.invalidError (wrongTypeMsg f g e)) ∧
    ManyFromJSON (.error (.typeErr f g kind)) dp uid =
      .error (.invalidError (wrongTypeMsg f g kind.jsonName)) :=
  ⟨rfl, rfl, rfl⟩

/-- Claim C3: running `Update` twice in succession against a data provider
that answers identically both times yields the same key multiset from
`Keys()`: the second `Update` neither adds, drops nor duplicates keys. -/
theorem update_twice_same_key_multiset (b : Builder) (dp : DataProvider) :
    (↑(((b.Update dp).1.Update dp).1.Keys) : Multiset Key) =
      ↑((b.Update dp).1.Keys) := by
  cases h : updateKeys b.bodies dp with
  | ok r => simp [Builder.Update, Builder.Keys, h]
  | error e => simp [Builder.Update, Builder.Keys, h]

/-- Claim C2: if `Update` returns an error then `Keys()` afterwards is the
empty list, the request bodies are unchanged, and a subsequent `Update`
computes the very key list a fresh builder over the same bodies would: the
full key list is rebuilt from scratch, independent of the failed state. -/
theorem update_error_resets_keys (b : Builder) (dp : DataProvider)
    (b' : Builder) (e : UpdateError) (h : b.Update dp = (b', some e)) :
    b'.Keys = [] ∧ b'.bodies = b.bodies ∧
      ∀ dp2 : DataProvider,
        (b'.Update dp2).1.Keys =
          ((⟨b.uid, b.bodies, []⟩ : Builder).Update dp2).1.Keys := by
  have hb : b' = (⟨b.uid, b.bodies, []⟩ : Builder) := by
    unfold Builder.Update at h
    cases hu : updateKeys b.bodies dp <;> rw [hu] at h <;> simp_all
  subst hb
  exact ⟨rfl, rfl, fun dp2 => rfl⟩

/-- Claim C5: during a round of `Update`, a relation key whose fetched value
is absent or null is skipped silently — the round behaves exactly as if that
entry were not present (no nested keys from its subtree, no error, the other
entries continue), and a round in which every fetched value is absent
produces the untouched process map with no error. -/
theorem processRound_skips_missing_values
    (entries : List (Key × fieldDescription))
    (data : Key → Option JsonValue) (m : ProcessMap) (k : Key)
    (h : data k = none) :
    processRound entries data m =
      processRound (entries.filter (fun p => p.1 != k)) data m ∧
    ((∀ p ∈ entries, data p.1 = none) → processRound entries data m = .ok m) := by
  constructor
  · induction entries generalizing m with
    | nil => rfl
    | cons p rest ih =>
      by_cases hp : p.1 = k
      · have hd : data p.1 = none := by rw [hp, h]
        have hf : ((p :: rest).filter (fun q => q.1 != k))
            = rest.filter (fun q => q.1 != k) := by
          simp [List.filter_cons, hp]
        rw [hf, ← ih m]
        simp [processRound, hd]
      · have hf : ((p :: rest).filter (fun q => q.1 != k))
            = p :: rest.filter (fun q => q.1 != k) := by
          simp [List.filter_cons, hp]
        rw [hf]
        simp only [processRound]
        cases hd : data p.1 with
        | none => exact ih m
        | some v =>
          cases hdk : descNextKeys p.2 v with
          | error de => cases de <;> simp [hdk]
          | ok next =>
            simp only [hdk]
            exact ih (insertAll m next)
  · intro hall
    induction entries with
    | nil => rfl
    | cons p rest ih =>
      have hd : data p.1 = none := hall p (List.mem_cons_self p rest)
      simp only [processRound, hd]
      exact ih (fun q hq => hall q (List.mem_cons_of_mem p hq))

/-- Witness for C5 at a concrete input: a single relation entry whose value
the data provider withholds is skipped, leaving the process map empty. -/
theorem processRound_skips_missing_values_witness :
    processRound
        [("user/1/group_id", fieldDescription.relation "group"
          [("name", fieldDescription.terminal)])]
        (fun _ => none) [] =
      processRound [] (fun _ => (none : Option JsonValue)) [] ∧
    processRound
        [("user/1/group_id", fieldDescription.relation "group"
          [("name", fieldDescription.terminal)])]
        (fun _ => none) [] = .ok [] := by
  have h := processRound_skips_missing_values
    [("user/1/group_id", fieldDescription.relation "group"
      [("name", fieldDescription.terminal)])]
    (fun _ => none) [] "user/1/group_id" rfl
  refine ⟨?_, h.2 (fun p hp => rfl)⟩
  have hf :
      ([("user/1/group_id", fieldDescription.relation "group"
        [("name", fieldDescription.terminal)])].filter
          (fun p => p.1 != "user/1/group_id")) = [] := rfl
  rw [h.1, hf]

/-- Witness for C2 at a concrete input: with a failing data provider,
`Update` on a builder that held keys before leaves the key list empty and the
bodies intact. -/
theorem update_error_resets_keys_witness :
    (⟨1, [relationBody], []⟩ : Builder).Keys = [] ∧
      (⟨1, [relationBody], []⟩ : Builder).bodies = [relationBody] := by
  have h := update_error_resets_keys ⟨1, [relationBody], ["old/1/key"]⟩
    failingDP ⟨1, [relationBody], []⟩ (.loadNeeded "boom") rfl
  exact ⟨h.1, h.2.1⟩

/-- Counterexample to C4 as stated: a successful `Update` can return a key
list with a duplicate.  The relation value of `a/1/f` points back at `a/1`,
so the second expansion level re-inserts the key `a/1/f` into the freshly
cleared process map and the loop appends it to the output a second time. -/
theorem update_cross_level_duplicate :
    updateKeys [selfRefBody] selfRefDP = .ok (["a/1/f", "a/1/f"], [["a/1/f"]]) ∧
      (["a/1/f", "a/1/f"] : List Key).count "a/1/f" = 2 :=
  ⟨rfl, rfl⟩

/-- The key column of a map insert: unchanged when the key was present,
extended by the new key otherwise. -/
theorem map_fst_mapInsert (m : ProcessMap) (k : Key) (d : fieldDescription) :
    (mapInsert m k d).map Prod.fst =
      if m.any (fun p => p.1 == k) then m.map Prod.fst
      else m.map Prod.fst ++ [k] := by
  unfold mapInsert
  split
  · rw [List.map_map]
    apply List.map_congr_left
    intro p hp
    by_cases hpk : p.1 = k
    · simp [hpk]
    · simp [hpk]
  · simp

/-- Distinct keys survive a map insert. -/
theorem nodupKeys_mapInsert {m : ProcessMap} (k : Key) (d : fieldDescription)
    (h : NodupKeys m) : NodupKeys (mapInsert m k d) := by
  unfold NodupKeys at h ⊢
  rw [map_fst_mapInsert]
  split
  · exact h
  · rename_i hany
    rw [List.nodup_append]
    refine ⟨h, List.nodup_singleton k, ?_⟩
    intro x hx hk
    rw [List.mem_singleton] at hk
    subst hk
    obtain ⟨p, hp, hpx⟩ := List.mem_map.mp hx
    exact hany (List.any_eq_true.mpr ⟨p, hp, by rw [beq_iff_eq, hpx]⟩)

/-- Distinct keys survive a batch insert. -/
theorem nodupKeys_insertAll (l : List (Key × fieldDescription)) :
    ∀ m : ProcessMap, NodupKeys m → NodupKeys (insertAll m l) := by
  induction l with
  | nil => exact fun _ h => h
  | cons p rest ih => exact fun m h => ih _ (nodupKeys_mapInsert p.1 p.2 h)

/-- Distinct keys survive the seeding of one collection's field list. -/
theorem nodupKeys_fieldsFold (cid : String) (fs : List (String × fieldDescription)) :
    ∀ m, NodupKeys m →
      NodupKeys (fs.foldl (fun m fd => mapInsert m (buildGenericKey cid fd.1) fd.2) m) := by
  induction fs with
  | nil => exact fun _ h => h
  | cons fd rest ih => exact fun m h => ih _ (nodupKeys_mapInsert _ _ h)

/-- Distinct keys survive the seeding of a whole body. -/
theorem nodupKeys_keysInto (b : body) :
    ∀ m, NodupKeys m → NodupKeys (b.keysInto m) := by
  unfold body.keysInto
  generalize b.entries = es
  induction es with
  | nil => exact fun _ h => h
  | cons cf rest ih => exact fun m h => ih _ (nodupKeys_fieldsFold cf.1 cf.2 m h)

/-- The seed process map has pairwise distinct keys. -/
theorem nodupKeys_seedProcess (bodies : List body) : NodupKeys (seedProcess bodies) := by
  unfold seedProcess
  have hall : ∀ (bs : List body) m, NodupKeys m →
      NodupKeys (bs.foldl (fun m b => b.keysInto m) m) := by
    intro bs
    induction bs with
    | nil => exact fun _ h => h
    | cons b rest ih => exact fun m h => ih _ (nodupKeys_keysInto b m h)
  exact hall bodies [] List.nodup_nil

/-- A successful round builds its process map by map inserts only, so the
result again has pairwise distinct keys. -/
theorem nodupKeys_processRound
    (entries : List (Key × fieldDescription)) (data : Key → Option JsonValue) :
    ∀ acc m', NodupKeys acc → processRound entries data acc = .ok m' →
      NodupKeys m' := by
  induction entries with
  | nil =>
    intro acc m' h he
    simp only [processRound, Except.ok.injEq] at he
    exact he ▸ h
  | cons p rest ih =>
    intro acc m' h he
    simp only [processRound] at he
    cases hd : data p.1 with
    | none =>
      rw [hd] at he
      exact ih acc m' h he
    | some v =>
      rw [hd] at he
      cases hdk : descNextKeys p.2 v with
      | error de => cases de <;> simp [hdk] at he
      | ok next =>
        simp only [hdk] at he
        exact ih _ m' (nodupKeys_insertAll next acc h) he

/-- Claim C4, amended: duplicate keys among siblings at the same expansion
level appear only once for that level, because each level's `process` is a
map with pairwise distinct keys — both the seed map and the map built by any
successful round; a key reached again at a deeper level, however, is
appended to the output again (see the counterexample), so deduplication is
per level, not across levels. -/
theorem process_map_nodup_per_level :
    (∀ bodies : List body, NodupKeys (seedProcess bodies)) ∧
    (∀ entries data m', processRound entries data [] = .ok m' → NodupKeys m') :=
  ⟨nodupKeys_seedProcess,
   fun entries data m' he =>
     nodupKeys_processRound entries data [] m' List.nodup_nil he⟩

/-- Witness for the amended C4 at concrete inputs: the seed map of the
self-referential request and the process map its first round builds each
hold the key `a/1/f` exactly once. -/
theorem process_map_nodup_per_level_witness :
    NodupKeys (seedProcess [selfRefBody]) ∧
      NodupKeys [("a/1/f", fieldDescription.terminal)] :=
  ⟨process_map_nodup_per_level.1 [selfRefBody],
   process_map_nodup_per_level.2
     [("a/1/f", fieldDescription.relation "a" [("f", fieldDescription.terminal)])]
     (fun k => if k = "a/1/f" then some (.str "a/1") else none) _ rfl⟩

end keysbuilder

namespace autoupdate

/-- Claim C1: the first successful `Next` returns exactly the currently
visible keys with their restricted values — a pair `(k, v)` is delivered iff
`k` is in the builder's key set and its restricted value is `v` — and a key
whose restricted value is absent appears neither in the returned map nor in
the connection's `last` map. -/
theorem connection_first_next_visible (c : Connection)
    (r : keysbuilder.Key → Option String) (k : keysbuilder.Key) (v : String) :
    ((k, v) ∈ (connFirstNext c r).2 ↔ k ∈ c.builderKeys ∧ r k = some v) ∧
    (r k = none →
      (∀ w, (k, w) ∉ (connFirstNext c r).2) ∧
      (∀ w, (k, w) ∉ (connFirstNext c r).1.last)) := by
  have hmem : ∀ w : String,
      (k, w) ∈ (connFirstNext c r).2 ↔ k ∈ c.builderKeys ∧ r k = some w := by
    intro w
    simp only [connFirstNext, List.mem_filterMap, Option.map_eq_some']
    constructor
    · rintro ⟨a, ha, u, hu, heq⟩
      obtain ⟨h1, h2⟩ := Prod.mk.injEq a u k w ▸ heq
      subst h1
      subst h2
      exact ⟨ha, hu⟩
    · rintro ⟨ha, hu⟩
      exact ⟨k, ha, w, hu, rfl⟩
  refine ⟨hmem v, fun hr => ⟨fun w hw => ?_, fun w hw => ?_⟩⟩
  · have h2 := ((hmem w).mp hw).2
    rw [hr] at h2
    exact Option.noConfusion h2
  · have h2 := ((hmem w).mp hw).2
    rw [hr] at h2
    exact Option.noConfusion h2

/-- Witness for C1 at a concrete input: of the two observed keys, the
visible one is delivered with its value and the invisible one is omitted. -/
theorem connection_first_next_visible_witness :
    (("user/1/name", "hello") ∈
      (connFirstNext ⟨1, ["user/1/name", "doesnot/1/exist"], [], true⟩
        demoRestricted).2) ∧
    (∀ w, ("doesnot/1/exist", w) ∉
      (connFirstNext ⟨1, ["user/1/name", "doesnot/1/exist"], [], true⟩
        demoRestricted).2) := by
  constructor
  · exact (connection_first_next_visible
      ⟨1, ["user/1/name", "doesnot/1/exist"], [], true⟩
      demoRestricted "user/1/name" "hello").1.mpr ⟨by simp, rfl⟩
  · intro w
    exact ((connection_first_next_visible
      ⟨1, ["user/1/name", "doesnot/1/exist"], [], true⟩
      demoRestricted "doesnot/1/exist" "hello").2 rfl).1 w

end autoupdate

namespace keysbuilder

/-- Membership in the key column after a map insert. -/
theorem mem_map_fst_mapInsert (m : ProcessMap) (k : Key) (d : fieldDescription)
    (x : Key) :
    x ∈ (mapInsert m k d).map Prod.fst ↔ x ∈ m.map Prod.fst ∨ x = k := by
  rw [map_fst_mapInsert]
  split
  · rename_i hany
    constructor
    · exact Or.inl
    · rintro (hx | rfl)
      · exact hx
      · obtain ⟨p, hp, hpk⟩ := List.any_eq_true.mp hany
        rw [beq_iff_eq] at hpk
        exact hpk ▸ List.mem_map_of_mem Prod.fst hp
  · simp [List.mem_append]

/-- Membership in the key column after a batch insert. -/
theorem mem_fst_insertAll (l : List (Key × fieldDescription)) :
    ∀ (m : ProcessMap) (x : Key),
      x ∈ (insertAll m l).map Prod.fst ↔
        x ∈ m.map Prod.fst ∨ x ∈ l.map Prod.fst := by
  induction l with
  | nil => intro m x; simp [insertAll]
  | cons p rest ih =>
    intro m x
    have h1 : insertAll m (p :: rest) = insertAll (mapInsert m p.1 p.2) rest := rfl
    rw [h1, ih, mem_map_fst_mapInsert]
    simp only [List.map_cons, List.mem_cons]
    tauto

/-- Membership in the key column after seeding one collection's fields. -/
theorem mem_fst_fieldsFold (cid : String) (fs : List (String × fieldDescription)) :
    ∀ (m : ProcessMap) (x : Key),
      x ∈ ((fs.foldl (fun m fd => mapInsert m (buildGenericKey cid fd.1) fd.2) m).map
        Prod.fst) ↔
        x ∈ m.map Prod.fst ∨ ∃ fd ∈ fs, x = buildGenericKey cid fd.1 := by
  induction fs with
  | nil => intro m x; simp
  | cons fd rest ih =>
    intro m x
    simp only [List.foldl_cons]
    rw [ih, mem_map_fst_mapInsert]
    simp only [List.mem_cons]
    constructor
    · rintro ((hx | rfl) | ⟨fd', hfd', he⟩)
      · exact Or.inl hx
      · exact Or.inr ⟨fd, Or.inl rfl, rfl⟩
      · exact Or.inr ⟨fd', Or.inr hfd', he⟩
    · rintro (hx | ⟨fd', hfd | hfd, he⟩)
      · exact Or.inl (Or.inl hx)
      · subst hfd; exact Or.inl (Or.inr he)
      · exact Or.inr ⟨fd', hfd, he⟩

/-- Membership in the key column after seeding a whole body. -/
theorem mem_fst_keysInto (b : body) :
    ∀ (m : ProcessMap) (x : Key),
      x ∈ (b.keysInto m).map Prod.fst ↔
        x ∈ m.map Prod.fst ∨
          ∃ cf ∈ b.entries, ∃ fd ∈ cf.2, x = buildGenericKey cf.1 fd.1 := by
  unfold body.keysInto
  generalize b.entries = es
  induction es with
  | nil => intro m x; simp
  | cons cf rest ih =>
    intro m x
    simp only [List.foldl_cons]
    rw [ih, mem_fst_fieldsFold]
    simp only [List.mem_cons]
    constructor
    · rintro ((hx | ⟨fd, hfd, he⟩) | ⟨cf', hcf', fd', hfd', he⟩)
      · exact Or.inl hx
      · exact Or.inr ⟨cf, Or.inl rfl, fd, hfd, he⟩
      · exact Or.inr ⟨cf', Or.inr hcf', fd', hfd', he⟩
    · rintro (hx | ⟨cf', hcf | hcf, fd', hfd', he⟩)
      · exact Or.inl (Or.inl hx)
      · subst hcf; exact Or.inl (Or.inr ⟨fd', hfd', he⟩)
      · exact Or.inr ⟨cf', hcf, fd', hfd', he⟩

/-- The keys of the seed process map are exactly the top-level
collection-id/field pairs of the bodies. -/
theorem mem_fst_seedProcess (bodies : List body) (x : Key) :
    x ∈ (seedProcess bodies).map Prod.fst ↔
      ∃ b ∈ bodies, ∃ cf ∈ b.entries, ∃ fd ∈ cf.2,
        x = buildGenericKey cf.1 fd.1 := by
  unfold seedProcess
  have hgen : ∀ (bs : List body) (m : ProcessMap) (x : Key),
      x ∈ ((bs.foldl (fun m b => b.keysInto m) m).map Prod.fst) ↔
        x ∈ m.map Prod.fst ∨
          ∃ b ∈ bs, ∃ cf ∈ b.entries, ∃ fd ∈ cf.2,
            x = buildGenericKey cf.1 fd.1 := by
    intro bs
    induction bs with
    | nil => intro m x; simp
    | cons b rest ih =>
      intro m x
      simp only [List.foldl_cons]
      rw [ih, mem_fst_keysInto]
      simp only [List.mem_cons]
      constructor
      · rintro ((hx | ⟨cf, hcf, fd, hfd, he⟩) | ⟨b', hb', rest'⟩)
        · exact Or.inl hx
        · exact Or.inr ⟨b, Or.inl rfl, cf, hcf, fd, hfd, he⟩
        · exact Or.inr ⟨b', Or.inr hb', rest'⟩
      · rintro (hx | ⟨b', hb | hb, rest'⟩)
        · exact Or.inl (Or.inl hx)
        · subst hb; exact Or.inl (Or.inr rest')
        · exact Or.inr ⟨b', hb, rest'⟩
  rw [hgen]
  simp

/-- Keys already in the output, and all keys of the current process map,
survive to the final key list of a successful loop. -/
theorem loopN_keeps_keys (dp : DataProvider) :
    ∀ (fuel : Nat) (process : ProcessMap) (keys : List Key)
      (calls : List (List Key)) (ks : List Key) (cs : List (List Key)),
      loopN dp fuel process keys calls = .ok (ks, cs) →
      ∀ x, x ∈ keys ++ process.map Prod.fst → x ∈ ks := by
  intro fuel
  induction fuel with
  | zero =>
    intro process keys calls ks cs he
    simp [loopN] at he
  | succ n ih =>
    intro process keys calls ks cs he x hx
    simp only [loopN] at he
    split at he
    · simp only [Except.ok.injEq, Prod.mk.injEq] at he
      exact he.1 ▸ hx
    · cases hdp : dp ((relEntries process).map Prod.fst) with
      | error msg => simp only [hdp] at he; simp at he
      | ok data =>
        simp only [hdp] at he
        cases hpr : processRound (relEntries process) data [] with
        | error e => simp only [hpr] at he; simp at he
        | ok next =>
          simp only [hpr] at he
          exact ih next (keys ++ process.map Prod.fst) _ ks cs he x
            (List.mem_append_left _ hx)

/-- Claim C9: after every successful `Update`, every top-level
collection-id/field key of every body is in the key list, whatever the data
provider returned — pruning an invisible relation value removes only deeper
keys, never the relation key itself. -/
theorem top_level_keys_in_output (bodies : List body) (dp : DataProvider)
    (ks : List Key) (cs : List (List Key))
    (h : updateKeys bodies dp = .ok (ks, cs))
    (b : body) (hb : b ∈ bodies)
    (cf : String × List (String × fieldDescription)) (hcf : cf ∈ b.entries)
    (fd : String × fieldDescription) (hfd : fd ∈ cf.2) :
    buildGenericKey cf.1 fd.1 ∈ ks := by
  have hm : buildGenericKey cf.1 fd.1 ∈
      ([] : List Key) ++ (seedProcess bodies).map Prod.fst := by
    rw [List.nil_append, mem_fst_seedProcess]
    exact ⟨b, hb, cf, hcf, fd, hfd, rfl⟩
  exact loopN_keeps_keys dp (processSize (seedProcess bodies) + 1)
    (seedProcess bodies) [] [] ks cs h _ hm

/-- Witness for C9 at a concrete input: the top-level key of the plain
request is in the key list of a successful run against a data provider that
delivers nothing. -/
theorem top_level_keys_in_output_witness :
    buildGenericKey "user/1" "name" ∈ (["user/1/name"] : List Key) :=
  top_level_keys_in_output [plainBody] emptyDP ["user/1/name"] [] rfl
    plainBody (by simp)
    ("user/1", [("name", .terminal)]) (by simp [plainBody])
    ("name", .terminal) (by simp)

/-- A binding in a map insert is an old binding or the inserted one. -/
theorem mem_mapInsert (m : ProcessMap) (k : Key) (d : fieldDescription)
    (p : Key × fieldDescription) :
    p ∈ mapInsert m k d → p ∈ m ∨ p = (k, d) := by
  unfold mapInsert
  split
  · intro hp
    obtain ⟨q, hq, hqe⟩ := List.mem_map.mp hp
    by_cases hqk : q.1 = k
    · right; rw [← hqe]; simp [hqk]
    · left; rw [← hqe]; simp only [hqk, if_false]; exact hq
  · intro hp
    rcases List.mem_append.mp hp with h | h
    · exact Or.inl h
    · exact Or.inr (List.mem_singleton.mp h)

/-- A binding after seeding one collection's fields is an old binding or one
of the seeded field bindings. -/
theorem mem_fieldsFold (cid : String) (fs : List (String × fieldDescription)) :
    ∀ m p, p ∈ fs.foldl (fun m fd => mapInsert m (buildGenericKey cid fd.1) fd.2) m →
      p ∈ m ∨ ∃ fd ∈ fs, p = (buildGenericKey cid fd.1, fd.2) := by
  induction fs with
  | nil => exact fun m p hp => Or.inl hp
  | cons fd rest ih =>
    intro m p hp
    simp only [List.foldl_cons] at hp
    rcases ih _ p hp with h | ⟨fd', hfd', he⟩
    · rcases mem_mapInsert _ _ _ _ h with h2 | h2
      · exact Or.inl h2
      · exact Or.inr ⟨fd, List.mem_cons_self fd rest, h2⟩
    · exact Or.inr ⟨fd', List.mem_cons_of_mem _ hfd', he⟩

/-- A binding after seeding a body is an old binding or one of the body's
top-level bindings. -/
theorem mem_keysInto (b : body) :
    ∀ m p, p ∈ b.keysInto m →
      p ∈ m ∨ ∃ cf ∈ b.entries, ∃ fd ∈ cf.2,
        p = (buildGenericKey cf.1 fd.1, fd.2) := by
  unfold body.keysInto
  generalize b.entries = es
  induction es with
  | nil => exact fun m p hp => Or.inl hp
  | cons cf rest ih =>
    intro m p hp
    simp only [List.foldl_cons] at hp
    rcases ih _ p hp with h | ⟨cf', h1, fd', h2, he⟩
    · rcases mem_fieldsFold cf.1 cf.2 m p h with h2 | ⟨fd, hfd, he⟩
      · exact Or.inl h2
      · exact Or.inr ⟨cf, List.mem_cons_self cf rest, fd, hfd, he⟩
    · exact Or.inr ⟨cf', List.mem_cons_of_mem _ h1, fd', h2, he⟩

/-- Every binding of the seed process map is a top-level binding of one of
the bodies. -/
theorem mem_seedProcess (bodies : List body) (p : Key × fieldDescription) :
    p ∈ seedProcess bodies →
      ∃ b ∈ bodies, ∃ cf ∈ b.entries, ∃ fd ∈ cf.2,
        p = (buildGenericKey cf.1 fd.1, fd.2) := by
  unfold seedProcess
  have hgen : ∀ (bs : List body) m p, p ∈ bs.foldl (fun m b => b.keysInto m) m →
      p ∈ m ∨ ∃ b ∈ bs, ∃ cf ∈ b.entries, ∃ fd ∈ cf.2,
        p = (buildGenericKey cf.1 fd.1, fd.2) := by
    intro bs
    induction bs with
    | nil => exact fun m p hp => Or.inl hp
    | cons b rest ih =>
      intro m p hp
      simp only [List.foldl_cons] at hp
      rcases ih _ p hp with h | ⟨b', h1, rest'⟩
      · rcases mem_keysInto b m p h with h2 | ⟨cf, hcf, fd, hfd, he⟩
        · exact Or.inl h2
        · exact Or.inr ⟨b, List.mem_cons_self b rest, cf, hcf, fd, hfd, he⟩
      · exact Or.inr ⟨b', List.mem_cons_of_mem _ h1, rest'⟩
  intro hp
  rcases hgen bodies [] p hp with h | h
  · exact absurd h (List.not_mem_nil p)
  · exact h

/-- Claim C10: for a request whose bodies hold only plain fields, `Update`
succeeds without a single `RestrictedData` call (the call log is empty) and
the key list is exactly the top-level collection-id/field keys of the
bodies. -/
theorem plain_only_no_fetch (bodies : List body) (dp : DataProvider)
    (h : ∀ b ∈ bodies, ∀ cf ∈ b.entries, ∀ fd ∈ cf.2,
      fd.2 = fieldDescription.terminal) :
    updateKeys bodies dp = .ok ((seedProcess bodies).map Prod.fst, []) ∧
    ∀ x, x ∈ (seedProcess bodies).map Prod.fst ↔
      ∃ b ∈ bodies, ∃ cf ∈ b.entries, ∃ fd ∈ cf.2,
        x = buildGenericKey cf.1 fd.1 := by
  have hrel : relEntries (seedProcess bodies) = [] := by
    unfold relEntries
    rw [List.filter_eq_nil_iff]
    intro p hp
    obtain ⟨b, hb, cf, hcf, fd, hfd, he⟩ := mem_seedProcess bodies p hp
    rw [he]
    have ht := h b hb cf hcf fd hfd
    simp [ht, fieldDescription.isRel]
  constructor
  · unfold updateKeys
    simp only [loopN, hrel]
    simp
  · exact fun x => mem_fst_seedProcess bodies x

/-- Witness for C10 at a concrete input: the plain request runs with no
fetch and yields exactly its top-level key. -/
theorem plain_only_no_fetch_witness :
    updateKeys [plainBody] emptyDP =
      .ok ((seedProcess [plainBody]).map Prod.fst, []) ∧
    ("user/1/name" ∈ (seedProcess [plainBody]).map Prod.fst ↔
      ∃ b ∈ [plainBody], ∃ cf ∈ b.entries, ∃ fd ∈ cf.2,
        "user/1/name" = buildGenericKey cf.1 fd.1) := by
  have hp : ∀ b ∈ [plainBody], ∀ cf ∈ b.entries, ∀ fd ∈ cf.2,
      fd.2 = fieldDescription.terminal := by
    intro b hb cf hcf fd hfd
    simp only [List.mem_singleton] at hb
    subst hb
    have hcf' : cf = ("user/1", [("name", fieldDescription.terminal)]) := by
      simpa [plainBody] using hcf
    subst hcf'
    have hfd' : fd = ("name", fieldDescription.terminal) := by
      simpa using hfd
    subst hfd'
    rfl
  have h := plain_only_no_fetch [plainBody] emptyDP hp
  exact ⟨h.1, h.2 "user/1/name"⟩

/-- A single relation descriptor fails with an `UnmarshalTypeError` exactly
on the values that are not strings, carrying the value's type and the
expected type `string`. -/
theorem descNextKeys_relation_typeError (col : String)
    (fields : List (String × fieldDescription)) (v : JsonValue) (g e : String) :
    descNextKeys (.relation col fields) v = .error (.unmarshalTypeError g e) ↔
      v.isStr = false ∧ g = v.goType ∧ e = "string" := by
  cases v with
  | str s =>
    constructor
    · intro hc
      simp only [descNextKeys] at hc
      by_cases hcol : collectionOf s = col
      · rw [if_pos hcol] at hc
        exact Except.noConfusion hc
      · rw [if_neg hcol] at hc
        simp at hc
    · rintro ⟨hf, -, -⟩
      simp [JsonValue.isStr] at hf
  | intList ids => simp [descNextKeys, JsonValue.isStr, JsonValue.goType, eq_comm]
  | num n => simp [descNextKeys, JsonValue.isStr, JsonValue.goType, eq_comm]
  | boolean b => simp [descNextKeys, JsonValue.isStr, JsonValue.goType, eq_comm]
  | obj => simp [descNextKeys, JsonValue.isStr, JsonValue.goType, eq_comm]

/-- A multi relation descriptor fails with an `UnmarshalTypeError` exactly
on the values that are not lists of ids, carrying the value's type and the
expected type `list`. -/
theorem descNextKeys_relationList_typeError (col : String)
    (fields : List (String × fieldDescription)) (v : JsonValue) (g e : String) :
    descNextKeys (.relationList col fields) v = .error (.unmarshalTypeError g e) ↔
      v.isIntList = false ∧ g = v.goType ∧ e = "list" := by
  cases v with
  | intList ids => simp [descNextKeys, JsonValue.isIntList]
  | str s => simp [descNextKeys, JsonValue.isIntList, JsonValue.goType, eq_comm]
  | num n => simp [descNextKeys, JsonValue.isIntList, JsonValue.goType, eq_comm]
  | boolean b => simp [descNextKeys, JsonValue.isIntList, JsonValue.goType, eq_comm]
  | obj => simp [descNextKeys, JsonValue.isIntList, JsonValue.goType, eq_comm]

/-- When a round ends in a `ValueError`, its key, got type and expect type
come from an actual entry of the round whose fetched value failed shape
parsing with exactly that type error. -/
theorem processRound_valueError_sound
    (entries : List (Key × fieldDescription)) (data : Key → Option JsonValue) :
    ∀ (m : ProcessMap) (k g e : String),
      processRound entries data m = .error (.valueError k g e) →
      ∃ d v, (k, d) ∈ entries ∧ data k = some v ∧
        descNextKeys d v = .error (.unmarshalTypeError g e) := by
  induction entries with
  | nil => intro m k g e he; simp [processRound] at he
  | cons p rest ih =>
    intro m k g e he
    simp only [processRound] at he
    cases hd : data p.1 with
    | none =>
      rw [hd] at he
      obtain ⟨d, v, hm, hv, hp⟩ := ih m k g e he
      exact ⟨d, v, List.mem_cons_of_mem _ hm, hv, hp⟩
    | some v =>
      rw [hd] at he
      cases hdk : descNextKeys p.2 v with
      | error de =>
        cases de with
        | unmarshalTypeError g' e' =>
          simp only [hdk, Except.error.injEq, UpdateError.valueError.injEq] at he
          obtain ⟨h1, h2, h3⟩ := he
          subst h1
          subst h2
          subst h3
          refine ⟨p.2, v, ?_, hd, hdk⟩
          rw [Prod.mk.eta]
          exact List.mem_cons_self p rest
        | otherErr msg => simp only [hdk] at he; simp at he
      | ok next =>
        simp only [hdk] at he
        obtain ⟨d, v', hm, hv, hp⟩ := ih _ k g e he
        exact ⟨d, v', List.mem_cons_of_mem _ hm, hv, hp⟩

/-- When the whole loop ends in a `ValueError`, the carried key was fetched
from the data provider in one of the rounds and its value failed shape
parsing with exactly the carried got and expect types. -/
theorem loopN_valueError_sound (dp : DataProvider) :
    ∀ (fuel : Nat) (process : ProcessMap) (keys : List Key)
      (calls : List (List Key)) (k g e : String),
      loopN dp fuel process keys calls = .error (.valueError k g e) →
      ∃ needed data, dp needed = .ok data ∧ k ∈ needed ∧
        ∃ d v, data k = some v ∧
          descNextKeys d v = .error (.unmarshalTypeError g e) := by
  intro fuel
  induction fuel with
  | zero => intro process keys calls k g e he; simp [loopN] at he
  | succ n ih =>
    intro process keys calls k g e he
    simp only [loopN] at he
    split at he
    · simp at he
    · cases hdp : dp ((relEntries process).map Prod.fst) with
      | error msg => simp only [hdp] at he; simp at he
      | ok data =>
        simp only [hdp] at he
        cases hpr : processRound (relEntries process) data [] with
        | error e2 =>
          simp only [hpr, Except.error.injEq] at he
          subst he
          obtain ⟨d, v, hm, hv, hp⟩ :=
            processRound_valueError_sound _ data [] k g e hpr
          exact ⟨(relEntries process).map Prod.fst, data, hdp,
            List.mem_map_of_mem Prod.fst hm, d, v, hv, hp⟩
        | ok next =>
          simp only [hpr] at he
          exact ih next _ _ k g e he

/-- A round one of whose entries holds a wrongly shaped fetched value fails
with a `ValueError`, provided no entry fails with a different descriptor
error first. -/
theorem processRound_wrong_shape_fails
    (entries : List (Key × fieldDescription)) (data : Key → Option JsonValue) :
    ∀ (m : ProcessMap) (k : Key) (d : fieldDescription) (v : JsonValue)
      (g e : String),
      (k, d) ∈ entries → data k = some v →
      descNextKeys d v = .error (.unmarshalTypeError g e) →
      (∀ q ∈ entries, ∀ (w : JsonValue) (msg : String), data q.1 = some w →
        descNextKeys q.2 w ≠ .error (.otherErr msg)) →
      ∃ k' g' e', processRound entries data m = .error (.valueError k' g' e') := by
  induction entries with
  | nil => intro m k d v g e hmem; exact absurd hmem (List.not_mem_nil _)
  | cons p rest ih =>
    intro m k d v g e hmem hv hpar hno
    simp only [processRound]
    cases hd : data p.1 with
    | none =>
      rcases List.mem_cons.mp hmem with heq | hmem'
      · exfalso
        have hp1 : p.1 = k := by rw [← heq]
        rw [hp1, hv] at hd
        exact Option.noConfusion hd
      · exact ih m k d v g e hmem' hv hpar
          (fun q hq => hno q (List.mem_cons_of_mem _ hq))
    | some w =>
      cases hdk : descNextKeys p.2 w with
      | error de =>
        cases de with
        | unmarshalTypeError g' e' => exact ⟨p.1, g', e', by simp [hdk]⟩
        | otherErr msg =>
          exact absurd hdk (hno p (List.mem_cons_self p rest) w msg hd)
      | ok next =>
        rcases List.mem_cons.mp hmem with heq | hmem'
        · exfalso
          have hp1 : p.1 = k := by rw [← heq]
          have hp2 : p.2 = d := by rw [← heq]
          rw [hp1, hv] at hd
          have hvw : v = w := Option.some.inj hd
          rw [hp2, ← hvw, hpar] at hdk
          exact Except.noConfusion hdk
        · obtain ⟨k', g', e', hres⟩ := ih (insertAll m next) k d v g e hmem' hv
            hpar (fun q hq => hno q (List.mem_cons_of_mem _ hq))
          refine ⟨k', g', e', ?_⟩
          simp only [hdk]
          exact hres

/-- Claim C6: `Update` ends in a `ValueError` exactly for structurally wrong
relation values.  First, a descriptor's type error occurs iff the fetched
value has the wrong JSON shape, and it carries the value's type and the
declared expected type.  Second, whenever `Update` returns
`ValueError{key, got, expect}`, that key was fetched from the data provider
and its value failed shape parsing with exactly those types — a `ValueError`
arises in no other way.  Third, a round holding a wrongly shaped value does
fail with a `ValueError` (provided no other descriptor failure strikes
first). -/
theorem valueError_iff_wrong_shape :
    (∀ (col : String) (fields : List (String × fieldDescription))
      (v : JsonValue) (g e : String),
      (descNextKeys (.relation col fields) v = .error (.unmarshalTypeError g e) ↔
        v.isStr = false ∧ g = v.goType ∧ e = "string") ∧
      (descNextKeys (.relationList col fields) v =
          .error (.unmarshalTypeError g e) ↔
        v.isIntList = false ∧ g = v.goType ∧ e = "list")) ∧
    (∀ (bodies : List body) (dp : DataProvider) (k g e : String),
      updateKeys bodies dp = .error (.valueError k g e) →
      ∃ needed data, dp needed = .ok data ∧ k ∈ needed ∧
        ∃ d v, data k = some v ∧
          descNextKeys d v = .error (.unmarshalTypeError g e)) ∧
    (∀ (entries : List (Key × fieldDescription))
      (data : Key → Option JsonValue) (m : ProcessMap) (k : Key)
      (d : fieldDescription) (v : JsonValue) (g e : String),
      (k, d) ∈ entries → data k = some v →
      descNextKeys d v = .error (.unmarshalTypeError g e) →
      (∀ q ∈ entries, ∀ (w : JsonValue) (msg : String), data q.1 = some w →
        descNextKeys q.2 w ≠ .error (.otherErr msg)) →
      ∃ k' g' e', processRound entries data m = .error (.valueError k' g' e')) :=
  ⟨fun col fields v g e =>
     ⟨descNextKeys_relation_typeError col fields v g e,
      descNextKeys_relationList_typeError col fields v g e⟩,
   fun bodies dp k g e he => loopN_valueError_sound dp _ _ _ _ k g e he,
   fun entries data m k d v g e h1 h2 h3 h4 =>
     processRound_wrong_shape_fails entries data m k d v g e h1 h2 h3 h4⟩

/-- Witness for C6 at the specification's scenario 6: the multi-relation
request whose `title_ids` value is the number `42` ends in
`ValueError{motion/5/title_ids, number, list}`, and the theorem recovers the
fetched value and its failing parse. -/
theorem valueError_iff_wrong_shape_witness :
    ∃ needed data, numberDP needed = .ok data ∧
      "motion/5/title_ids" ∈ needed ∧
      ∃ d v, data "motion/5/title_ids" = some v ∧
        descNextKeys d v = .error (.unmarshalTypeError "number" "list") :=
  valueError_iff_wrong_shape.2.1 [listRelBody] numberDP
    "motion/5/title_ids" "number" "list" rfl

end keysbuilder
